import Mathlib

/-!
Verification development for the Vishwarupa distributed encrypted file store
(`src/main.rs`). The Rust source is shallowly embedded: byte buffers become
`List Nat`, machine loops become structural recursion, fallible operations
return `Except`/`Option`, and the external cryptographic / codec / erasure
libraries (ChaCha20-Poly1305, LZ4, reed-solomon-erasure) are abstracted as
function parameters whose contracts are stated as explicit hypotheses of
the theorems that need them.
-/

namespace Vishwarupa

/-- Bytes are modelled as natural numbers (the value range plays no role in
the properties below; zero padding uses the byte 0 exactly as the source). -/
abbrev Byte := Nat

instance {ε α : Type} [DecidableEq ε] [DecidableEq α] : DecidableEq (Except ε α) :=
  fun a b =>
    match a, b with
    | Except.ok x, Except.ok y =>
      if h : x = y then Decidable.isTrue (by rw [h])
      else Decidable.isFalse (fun hc => h (Except.ok.inj hc))
    | Except.error x, Except.error y =>
      if h : x = y then Decidable.isTrue (by rw [h])
      else Decidable.isFalse (fun hc => h (Except.error.inj hc))
    | Except.ok _, Except.error _ => Decidable.isFalse (fun hc => Except.noConfusion hc)
    | Except.error _, Except.ok _ => Decidable.isFalse (fun hc => Except.noConfusion hc)

/-- `const CHUNK: usize = 4 * 1024 * 1024;` (main.rs:16). -/
def CHUNK : Nat := 4 * 1024 * 1024

/-- `const DATA_SHARDS: usize = 6;` (main.rs:59). -/
def DATA_SHARDS : Nat := 6

/-- `const PARITY_SHARDS: usize = 4;` (main.rs:60). -/
def PARITY_SHARDS : Nat := 4

/-- The fixed LZ4 decompression bound `10 * 1024 * 1024` used at
main.rs:203 and main.rs:829. -/
def LZ4_LIMIT : Nat := 10 * 1024 * 1024

/-- `struct Device` (main.rs:64-70). -/
structure Device where
  device_id : String
  device_type : String
  address : String
  port : Nat
deriving DecidableEq

/-- `struct ShardMetadata` (main.rs:72-78). -/
structure ShardMetadata where
  file_id : String
  chunk_index : Nat
  shard_index : Nat
  nonce : List Byte
deriving DecidableEq

/-- `struct ShardLocation` (main.rs:101-109). -/
structure ShardLocation where
  chunk_index : Nat
  shard_index : Nat
  device_id : String
  device_address : String
  shard_id : String
  nonce : List Byte
deriving DecidableEq

/-- `struct ChunkInfo` (main.rs:111-116). -/
structure ChunkInfo where
  chunk_index : Nat
  encrypted_size : Nat
  nonce : List Byte
deriving DecidableEq

/-- `struct Manifest` (main.rs:80-99). -/
structure Manifest where
  file_id : String
  original_name : String
  file_size : Nat
  chunk_count : Nat
  encryption_key : List Byte
  shard_map : List ShardLocation
  chunks : List ChunkInfo
  sync_folder : Option String
  tags : List String
  created_at : String
  last_verified : Option String
deriving DecidableEq

/-! ## Chunk partitioning into data shards (upload, main.rs:577-594) -/

/-- `let shard_size = (encrypted.len() + DATA_SHARDS - 1) / DATA_SHARDS;`
(main.rs:577). -/
def shard_size (encLen : Nat) : Nat := (encLen + DATA_SHARDS - 1) / DATA_SHARDS

/-- Rust `Vec::resize(n, 0)`: truncate when longer than `n`, right-pad with
zero bytes when shorter (main.rs:588). -/
def resizeZero (xs : List Byte) (n : Nat) : List Byte :=
  if n ≤ xs.length then xs.take n else xs ++ List.replicate (n - xs.length) 0

/-- One data shard of the ciphertext: the slice `[i*s .. min ((i+1)*s) len)`
(empty when `start ≥ len`), resized to `s` (main.rs:580-589). -/
def dataShard (encrypted : List Byte) (s i : Nat) : List Byte :=
  resizeZero
    (if i * s < encrypted.length
     then (encrypted.drop (i * s)).take (min ((i + 1) * s) encrypted.length - i * s)
     else []) s

/-- The `DATA_SHARDS` data shards of a chunk ciphertext (main.rs:578-590). -/
def dataShards (encrypted : List Byte) : List (List Byte) :=
  (List.range DATA_SHARDS).map (dataShard encrypted (shard_size encrypted.length))

/-- Splitting a file into `CHUNK`-sized chunks (`file.chunks(CHUNK)`,
main.rs:564). The `n = 0` guard only serves termination; the source always
calls this with `CHUNK > 0`. -/
def chunksOf (n : Nat) (l : List Byte) : List (List Byte) :=
  if h : l = [] ∨ n = 0 then [] else l.take n :: chunksOf n (l.drop n)
termination_by l.length
decreasing_by
  push_neg at h
  obtain ⟨h1, h2⟩ := h
  have : 0 < l.length := List.length_pos.mpr h1
  simp only [List.length_drop]
  omega

/-- `let chunk_count = (file_size + CHUNK - 1) / CHUNK;` (main.rs:562). -/
def chunk_count_of (fileSize : Nat) : Nat := (fileSize + CHUNK - 1) / CHUNK

/-! ## Upload pipeline (main.rs:536-687)

The randomized / external ingredients of `upload` are collected in an
environment record: the symmetric key and identifiers minted by `rand`/`Uuid`,
the LZ4 compressor, the ChaCha20-Poly1305 chunk AEAD, the Reed-Solomon
encoder, and the per-(chunk, shard) outcome of the network STORE requests. -/
structure UploadEnv where
  /-- `let key: [u8; 32] = rand::thread_rng().gen();` (main.rs:539). -/
  key : List Byte
  /-- `Uuid::new_v4()` (main.rs:540). -/
  file_id : String
  /-- derived from the path (main.rs:541-545). -/
  original_name : String
  /-- `Local::now()` timestamp string (main.rs:645). -/
  created_at : String
  /-- `lz4::block::compress` (main.rs:567). -/
  compress : List Byte → List Byte
  /-- `lz4::block::decompress` with its size limit (main.rs:829). -/
  decompress : Nat → List Byte → Option (List Byte)
  /-- `encrypt_chunk` (main.rs:891-898): key, nonce, plaintext → ciphertext. -/
  encChunk : List Byte → List Byte → List Byte → List Byte
  /-- `decrypt_chunk` (main.rs:900-908). -/
  decChunk : List Byte → List Byte → List Byte → Option (List Byte)
  /-- the fresh random 12-byte nonce drawn for each chunk (main.rs:893). -/
  nonceFor : Nat → List Byte
  /-- `rs.encode(&mut shards)` (main.rs:597): fills the parity shards,
  leaving the data shards unchanged. -/
  rsEncode : List (List Byte) → List (List Byte)
  /-- whether `send_shard` to `peers[j % peers.len()]` succeeds for
  (chunk, shard) (main.rs:610). -/
  storeOk : Nat → Nat → Bool
  /-- the shard id minted by the storing peer on success (main.rs:518,611). -/
  sid : Nat → Nat → String

/-- The ShardLocation pushed on a successful STORE (main.rs:613-620). -/
def mkLoc (env : UploadEnv) (peers : List Device) (chunk_idx : Nat) (nonce : List Byte)
    (j : Nat) : ShardLocation :=
  let target := peers.getD (j % peers.length) ⟨"", "agent", "", 0⟩
  { chunk_index := chunk_idx
    shard_index := j
    device_id := target.device_id
    device_address := target.address ++ ":" ++ toString target.port
    shard_id := env.sid chunk_idx j
    nonce := nonce }

/-- The scatter loop `for (shard_idx, shard) in shards.iter().enumerate()`
(main.rs:599-626): on success the ShardLocation is appended and the target
peer stores the shard bytes under the minted id; on failure the shard is
skipped. The second component models the bytes the network now holds. -/
def scatterGo (env : UploadEnv) (peers : List Device) (chunk_idx : Nat) (nonce : List Byte) :
    Nat → List (List Byte) → List ShardLocation × List (String × List Byte)
  | _, [] => ([], [])
  | j, shard :: rest =>
    let tail := scatterGo env peers chunk_idx nonce (j + 1) rest
    if env.storeOk chunk_idx j then
      (mkLoc env peers chunk_idx nonce j :: tail.1,
       (env.sid chunk_idx j, shard) :: tail.2)
    else tail

/-- One iteration of the per-chunk loop (main.rs:564-627): compress, encrypt,
record ChunkInfo, split into `DATA_SHARDS` padded slices, append
`PARITY_SHARDS` zero shards, Reed-Solomon encode, scatter. The `s = 0`
branch models `reed_solomon_erasure` rejecting zero-length shards; with the
real AEAD the ciphertext is never empty. -/
def processChunk (env : UploadEnv) (peers : List Device) (chunk_idx : Nat)
    (chunk : List Byte) :
    Except String (ChunkInfo × List ShardLocation × List (String × List Byte)) :=
  let nonce := env.nonceFor chunk_idx
  let encrypted := env.encChunk env.key nonce (env.compress chunk)
  let s := shard_size encrypted.length
  if s = 0 then Except.error "EmptyShard"
  else
    let shards := dataShards encrypted ++ List.replicate PARITY_SHARDS (List.replicate s 0)
    let encoded := env.rsEncode shards
    let r := scatterGo env peers chunk_idx nonce 0 encoded
    Except.ok (⟨chunk_idx, encrypted.length, nonce⟩, r.1, r.2)

/-- The chunk loop of `upload`, accumulating `chunks_info`, `shard_map` and
the network contents in order (main.rs:564-627). -/
def uploadChunks (env : UploadEnv) (peers : List Device) :
    Nat → List (List Byte) →
      Except String (List ChunkInfo × List ShardLocation × List (String × List Byte))
  | _, [] => Except.ok ([], [], [])
  | idx, c :: rest =>
    match processChunk env peers idx c with
    | Except.error e => Except.error e
    | Except.ok (ci, locs, net) =>
      match uploadChunks env peers (idx + 1) rest with
      | Except.error e => Except.error e
      | Except.ok (cis, locss, nets) =>
        Except.ok (ci :: cis, locs ++ locss, net ++ nets)

/-- `upload` (main.rs:536-687). Reaching the `Except.ok` branch is exactly
the path on which `db.store_manifest(&manifest)` persists the manifest
(main.rs:649); every `Except.error` return happens before that call. -/
def upload (env : UploadEnv) (peers : List Device) (sync_folder : Option String)
    (tags : List String) (file : List Byte) :
    Except String (Manifest × List (String × List Byte)) :=
  if peers.isEmpty then Except.error "No devices found on network"
  else
    match uploadChunks env peers 0 (chunksOf CHUNK file) with
    | Except.error e => Except.error e
    | Except.ok (cis, locs, net) =>
      if locs.length < DATA_SHARDS then
        Except.error ("Not enough shards stored: " ++ toString locs.length ++ "/"
          ++ toString DATA_SHARDS)
      else
        Except.ok
          ({ file_id := env.file_id
             original_name := env.original_name
             file_size := file.length
             chunk_count := chunk_count_of file.length
             encryption_key := env.key
             shard_map := locs
             chunks := cis
             sync_folder := sync_folder
             tags := tags
             created_at := env.created_at
             last_verified := none }, net)

/-! ## Download pipeline (main.rs:753-842) -/

/-- `fetch_shard` against the network contents: the bytes stored under a
shard id, or a failure for an unknown id (main.rs:844-858). -/
def lookupStore : List (String × List Byte) → String → Option (List Byte)
  | [], _ => none
  | (k, v) :: rest, s => if k == s then some v else lookupStore rest s

/-- The fetch loop of `download` (main.rs:780-795): walk the chunk's
ShardLocations in manifest order, stop after `DATA_SHARDS` successful
fetches, place each fetched blob at its shard index. -/
def fetchChunkShards (net : List (String × List Byte)) (locs : List ShardLocation) :
    List (Option (List Byte)) × Nat :=
  locs.foldl
    (fun acc loc =>
      if DATA_SHARDS ≤ acc.2 then acc
      else
        match lookupStore net loc.shard_id with
        | some data => (acc.1.set loc.shard_index (some data), acc.2 + 1)
        | none => acc)
    (List.replicate (DATA_SHARDS + PARITY_SHARDS) none, 0)

/-- `rs.reconstruct(&mut shard_vec)` as invoked at main.rs:806-811: every
slot has already been filled (`or_else` replaces the holes by zero buffers),
so no shard is marked missing; the library then only validates the shard
count and the equal nonzero shard sizes and leaves the vector unchanged. -/
def rsReconstructFull (ssize : Nat) (shards : List (List Byte)) :
    Except String (List (List Byte)) :=
  if ssize = 0 then Except.error "EmptyShard"
  else if shards.length ≠ DATA_SHARDS + PARITY_SHARDS then Except.error "TooFewShards"
  else if shards.all (fun sh => sh.length == ssize) then Except.ok shards
  else Except.error "IncorrectShardSize"

/-- The body of the per-chunk download loop (main.rs:773-833). -/
def downloadChunk (env : UploadEnv) (net : List (String × List Byte)) (m : Manifest)
    (chunk_idx : Nat) : Except String (List Byte) :=
  let chunk_shards := m.shard_map.filter (fun l => l.chunk_index == chunk_idx)
  let fetched := fetchChunkShards net chunk_shards
  if fetched.2 < DATA_SHARDS then Except.error "Not enough shards"
  else
    match fetched.1.findSome? id with
    | none => Except.error "No valid shard"
    | some d0 =>
      let ssize := d0.length
      match rsReconstructFull ssize
          (fetched.1.map (fun o => o.getD (List.replicate ssize 0))) with
      | Except.error e => Except.error e
      | Except.ok recon =>
        let encrypted := (recon.take DATA_SHARDS).flatten
        match m.chunks.find? (fun c => c.chunk_index == chunk_idx) with
        | none => Except.error "Chunk info not found"
        | some ci =>
          match env.decChunk m.encryption_key ci.nonce (encrypted.take ci.encrypted_size) with
          | none => Except.error "Decryption failed"
          | some compressed =>
            match env.decompress LZ4_LIMIT compressed with
            | none => Except.error "DecompressOverflow"
            | some chunk => Except.ok chunk

/-- `for chunk_idx in 0..manifest.chunk_count` (main.rs:773), accumulating
`file_data`. -/
def downloadChunks (env : UploadEnv) (net : List (String × List Byte)) (m : Manifest) :
    Nat → Except String (List Byte)
  | 0 => Except.ok []
  | k + 1 =>
    match downloadChunks env net m k with
    | Except.error e => Except.error e
    | Except.ok acc =>
      match downloadChunk env net m k with
      | Except.error e => Except.error e
      | Except.ok c => Except.ok (acc ++ c)

/-- `download` (main.rs:753-842): assemble all chunks, then
`file_data.truncate(manifest.file_size)` (main.rs:835). -/
def download (env : UploadEnv) (net : List (String × List Byte)) (m : Manifest) :
    Except String (List Byte) :=
  match downloadChunks env net m m.chunk_count with
  | Except.error e => Except.error e
  | Except.ok fd => Except.ok (fd.take m.file_size)

/-! ## Closed forms used to state the pipeline lemmas -/

/-- The chunk ciphertext (main.rs:567-568). -/
def ctOf (env : UploadEnv) (chunk_idx : Nat) (chunk : List Byte) : List Byte :=
  env.encChunk env.key (env.nonceFor chunk_idx) (env.compress chunk)

/-- The ten Reed-Solomon-encoded shards of a chunk (main.rs:577-597). -/
def encodedOf (env : UploadEnv) (chunk_idx : Nat) (chunk : List Byte) : List (List Byte) :=
  env.rsEncode (dataShards (ctOf env chunk_idx chunk)
    ++ List.replicate PARITY_SHARDS
        (List.replicate (shard_size (ctOf env chunk_idx chunk).length) 0))

/-- The `chunks_info` accumulated over the chunk list. -/
def cisOfGo (env : UploadEnv) : Nat → List (List Byte) → List ChunkInfo
  | _, [] => []
  | idx, c :: rest =>
    ⟨idx, (ctOf env idx c).length, env.nonceFor idx⟩ :: cisOfGo env (idx + 1) rest

/-- The `shard_map` accumulated over the chunk list. -/
def locsOfGo (env : UploadEnv) (peers : List Device) : Nat → List (List Byte) → List ShardLocation
  | _, [] => []
  | idx, c :: rest =>
    (scatterGo env peers idx (env.nonceFor idx) 0 (encodedOf env idx c)).1
      ++ locsOfGo env peers (idx + 1) rest

/-- The network contents accumulated over the chunk list. -/
def netOfGo (env : UploadEnv) (peers : List Device) : Nat → List (List Byte) → List (String × List Byte)
  | _, [] => []
  | idx, c :: rest =>
    (scatterGo env peers idx (env.nonceFor idx) 0 (encodedOf env idx c)).2
      ++ netOfGo env peers (idx + 1) rest

/-- The per-chunk ShardLocation count of an upload result (used to state the
per-chunk placement claims). -/
def resultChunkLocCount (r : Except String (Manifest × List (String × List Byte)))
    (chunk_idx : Nat) : Nat :=
  match r with
  | Except.ok (m, _) => (m.shard_map.filter (fun l => l.chunk_index == chunk_idx)).length
  | Except.error _ => 0

/-! ## Manifest encryption (main.rs:172-205)

The master-key AEAD, the LZ4 block codec and the serde JSON codec are
abstracted as a record of functions; `encrypt_manifest`/`decrypt_manifest`
below are the source's composition of them. -/
structure ManifestCrypto where
  aeadEnc : List Byte → List Byte → List Byte → List Byte
  aeadDec : List Byte → List Byte → List Byte → Option (List Byte)
  compress : List Byte → List Byte
  decompress : Nat → List Byte → Option (List Byte)
  toJson : Manifest → List Byte
  fromJson : List Byte → Option Manifest

/-- `encrypt_manifest` (main.rs:172-187): random 12-byte nonce, AEAD over the
LZ4-compressed JSON, blob = nonce ‖ ciphertext. -/
def encrypt_manifest (c : ManifestCrypto) (masterKey nonce : List Byte) (m : Manifest) :
    List Byte :=
  nonce ++ c.aeadEnc masterKey nonce (c.compress (c.toJson m))

/-- `decrypt_manifest` (main.rs:189-205): reject inputs shorter than 12
bytes, split nonce ‖ ciphertext at offset 12, AEAD-decrypt, LZ4-decompress
with the 10 MiB limit, JSON-parse. -/
def decrypt_manifest (c : ManifestCrypto) (masterKey : List Byte) (data : List Byte) :
    Except String Manifest :=
  if data.length < 12 then Except.error "Invalid manifest data"
  else
    match c.aeadDec masterKey (data.take 12) (data.drop 12) with
    | none => Except.error "Manifest decryption failed"
    | some compressed =>
      match c.decompress LZ4_LIMIT compressed with
      | none => Except.error "DecompressOverflow"
      | some json =>
        match c.fromJson json with
        | none => Except.error "Invalid manifest JSON"
        | some m => Except.ok m

/-! ## Shard health probe (main.rs:860-889) -/

/-- Outcome of one health probe connection, as the source distinguishes
them: a failed/timed-out connect (main.rs:887), a failed write
(main.rs:871-873), a failed/timed-out/empty read (main.rs:884), or `n > 0`
response bytes decoded to a character string (main.rs:881). -/
inductive ProbeEvent where
  | connectFail : ProbeEvent
  | writeFail : ProbeEvent
  | readFail : ProbeEvent
  | response : List Char → ProbeEvent
deriving DecidableEq

/-- `str::starts_with` on decoded response strings (main.rs:882). -/
def strStartsWith : List Char → List Char → Bool
  | _, [] => true
  | [], _ :: _ => false
  | a :: as, b :: bs => a == b && strStartsWith as bs

/-- `verify_shard_health` (main.rs:860-889). -/
def verify_shard_health : ProbeEvent → Except String Bool
  | ProbeEvent.connectFail => Except.error "Device unreachable"
  | ProbeEvent.writeFail => Except.ok false
  | ProbeEvent.readFail => Except.ok false
  | ProbeEvent.response s =>
    Except.ok (strStartsWith s ['O', 'K'] || strStartsWith s ['P', 'O', 'N', 'G'])

/-- The healthy/missing counters of the verify loop (main.rs:1014-1029):
`Ok(true)` increments healthy, `Ok(false)` and `Err(_)` increment missing. -/
def countHealth (results : List (Except String Bool)) : Nat × Nat :=
  results.foldl
    (fun acc r =>
      match r with
      | Except.ok true => (acc.1 + 1, acc.2)
      | Except.ok false => (acc.1, acc.2 + 1)
      | Except.error _ => (acc.1, acc.2 + 1))
    (0, 0)

/-- The file status line (main.rs:1031). -/
def fileStatus (results : List (Except String Bool)) : String :=
  let hm := countHealth results
  if hm.2 = 0 then "HEALTHY"
  else if DATA_SHARDS ≤ hm.1 then "DEGRADED"
  else "CRITICAL"

/-! ## Peer node service (handle_connection, main.rs:456-534) -/

/-- The peer's shard directory: file name bytes → content bytes. -/
structure PeerState where
  files : List (List Byte × List Byte)
deriving DecidableEq

/-- `Path::new(&shard_path).exists()` (main.rs:491). -/
def fileExistsB (st : PeerState) (name : List Byte) : Bool :=
  st.files.any (fun p => p.1 == name)

/-- `fs::read(&shard_path)` (main.rs:497). -/
def readStored (st : PeerState) (name : List Byte) : Option (List Byte) :=
  (st.files.find? (fun p => p.1 == name)).map (fun p => p.2)

/-- ASCII whitespace bytes removed by `str::trim` (main.rs:487). -/
def isWsByte (b : Byte) : Bool :=
  b == 9 || b == 10 || b == 11 || b == 12 || b == 13 || b == 32

/-- `shard_id.trim()` (main.rs:487). -/
def trimBytes (l : List Byte) : List Byte :=
  ((l.dropWhile isWsByte).reverse.dropWhile isWsByte).reverse

/-- The byte-by-byte id read loop (main.rs:480-485): accumulate until a
newline or NUL byte (dropped) or the end of the stream. -/
def readLine : List Byte → List Byte
  | [] => []
  | b :: rest => if b == 10 || b == 0 then [] else b :: readLine rest

/-- `u32::from_be_bytes(header)` (main.rs:508). -/
def u32be (b0 b1 b2 b3 : Byte) : Nat := ((b0 * 256 + b1) * 256 + b2) * 256 + b3

/-- `b"PONG:OK\n"` (main.rs:492). -/
def PONG_OK : List Byte := [80, 79, 78, 71, 58, 79, 75, 10]

/-- `b"PONG:MISSING\n"` (main.rs:494). -/
def PONG_MISSING : List Byte := [80, 79, 78, 71, 58, 77, 73, 83, 83, 73, 78, 71, 10]

/-- `b"ERR"` (main.rs:502,528). -/
def ERR_RESP : List Byte := [69, 82, 82]

/-- The ASCII bytes of `".meta"` (main.rs:520). -/
def META_SUFFIX : List Byte := [46, 109, 101, 116, 97]

/-- `handle_connection` (main.rs:456-534) over the full connection input
stream. `parseMeta` abstracts `serde_json::from_slice::<ShardMetadata>`;
`freshId` is the `Uuid` the peer would mint. `none` models a connection
aborted by an I/O error (a short read); otherwise the result is the response
bytes and the new shard-store state. -/
def handle_connection (parseMeta : List Byte → Option ShardMetadata) (freshId : List Byte)
    (st : PeerState) (input : List Byte) : Option (List Byte × PeerState) :=
  match input with
  | b0 :: b1 :: b2 :: b3 :: rest =>
    if [b0, b1, b2] = [71, 69, 84] ∨ [b0, b1, b2, b3] = [80, 73, 78, 71] then
      if [b0, b1, b2, b3] = [80, 73, 78, 71] then
        -- PING: one extra byte (the expected colon) is read and discarded unchecked
        match rest with
        | [] => none
        | _ :: r =>
          let shard_id := trimBytes (readLine r)
          some (if fileExistsB st shard_id then PONG_OK else PONG_MISSING, st)
      else
        -- GET: header byte 3 joins the id unless it is the colon
        let idHead := if b3 = 58 then [] else [b3]
        let shard_id := trimBytes (idHead ++ readLine rest)
        match readStored st shard_id with
        | some data => some (data, st)
        | none => some (ERR_RESP, st)
    else
      -- STORE: the 4 header bytes are the big-endian metadata length
      let meta_len := u32be b0 b1 b2 b3
      if rest.length < meta_len then none
      else
        let meta := rest.take meta_len
        let payload := rest.drop meta_len
        match parseMeta meta with
        | some _ =>
          some (freshId,
            { files := st.files ++ [(freshId ++ META_SUFFIX, meta), (freshId, payload)] })
        | none => some (ERR_RESP, st)
  | _ => none

/-- A well-formed `PING:<id>\n` frame (main.rs:870, §6). -/
def pingFrame (sidb : List Byte) : List Byte := [80, 73, 78, 71, 58] ++ sidb ++ [10]

/-- A well-formed `GET:<id>\n` frame (main.rs:847, §6). -/
def getFrame (sidb : List Byte) : List Byte := [71, 69, 84, 58] ++ sidb ++ [10]

/-! ## Concrete instantiations used for witnesses and counterexamples -/

/-- Six reachable peers. -/
def peersW : List Device :=
  [⟨"d0", "agent", "10.0.0.10", 9000⟩, ⟨"d1", "agent", "10.0.0.11", 9001⟩,
   ⟨"d2", "agent", "10.0.0.12", 9002⟩, ⟨"d3", "agent", "10.0.0.13", 9003⟩,
   ⟨"d4", "agent", "10.0.0.14", 9004⟩, ⟨"d5", "agent", "10.0.0.15", 9005⟩]

/-- A concrete environment whose primitives satisfy the round-trip
contracts: every STORE succeeds and shard ids are distinct. -/
def envW : UploadEnv :=
  { key := [7]
    file_id := "fid-1"
    original_name := "f.bin"
    created_at := "2026-01-01 00:00:00"
    compress := fun x => x
    decompress := fun cap x => if x.length ≤ cap then some x else none
    encChunk := fun _ _ x => x ++ [0]
    decChunk := fun _ _ y => some y.dropLast
    nonceFor := fun c => List.replicate 11 0 ++ [c]
    rsEncode := fun ss => ss
    storeOk := fun _ _ => true
    sid := fun c j => toString (c * 100 + j) }

/-- Like `envW` but during chunk 0 only the STOREs of shards 0, 1, 2
succeed, while every STORE of the other chunks succeeds. -/
def envC2 : UploadEnv :=
  { key := [7]
    file_id := "fid-2"
    original_name := "g.bin"
    created_at := "2026-01-01 00:00:00"
    compress := fun x => x
    decompress := fun cap x => if x.length ≤ cap then some x else none
    encChunk := fun _ _ x => x ++ [0]
    decChunk := fun _ _ y => some y.dropLast
    nonceFor := fun c => List.replicate 11 0 ++ [c]
    rsEncode := fun ss => ss
    storeOk := fun c j => if c = 0 then decide (j < 3) else true
    sid := fun c j => toString (c * 100 + j) }

/-- A two-chunk file: `CHUNK + 1` bytes. -/
def fileC2 : List Byte := List.replicate (CHUNK + 1) 37

/-- A concrete manifest value. -/
def mW : Manifest :=
  { file_id := "fid-1"
    original_name := "f.bin"
    file_size := 3
    chunk_count := 1
    encryption_key := [7]
    shard_map := []
    chunks := []
    sync_folder := none
    tags := []
    created_at := "2026-01-01 00:00:00"
    last_verified := none }

/-- Concrete manifest-crypto primitives satisfying the AEAD / LZ4 / JSON
round-trip contracts at `mW`. -/
def mcW : ManifestCrypto :=
  { aeadEnc := fun _ _ p => p ++ [1]
    aeadDec := fun _ _ e => some e.dropLast
    compress := fun x => x
    decompress := fun cap x => if x.length ≤ cap then some x else none
    toJson := fun _ => [2]
    fromJson := fun _ => some mW }

/-- A 12-byte nonce. -/
def nonceW : List Byte := List.replicate 12 0

/-- A peer shard store holding one shard named `X` (byte 88). -/
def stW : PeerState := ⟨[([88], [5])]⟩

/-- A metadata parser that rejects everything (a parse failure). -/
def pmW : List Byte → Option ShardMetadata := fun _ => none

/-- A fresh peer-minted shard id (byte `F`). -/
def freshIdW : List Byte := [70]

/-! ## Basic lemmas about the partition -/

theorem resizeZero_eq (xs : List Byte) (n : Nat) :
    resizeZero xs n = xs.take n ++ List.replicate (n - xs.length) 0 := by
  unfold resizeZero
  by_cases h : n ≤ xs.length
  · simp [h, Nat.sub_eq_zero_of_le h]
  · push_neg at h
    rw [if_neg (by omega), List.take_of_length_le (by omega)]

theorem length_resizeZero (xs : List Byte) (n : Nat) :
    (resizeZero xs n).length = n := by
  rw [resizeZero_eq]
  simp [List.length_take]
  omega

/-- A list already of length `n` is unchanged by `resizeZero`. -/
theorem resizeZero_of_length_eq (xs : List Byte) (n : Nat) (h : xs.length = n) :
    resizeZero xs n = xs := by
  unfold resizeZero
  rw [if_pos (le_of_eq h.symm), ← h, List.take_length]

theorem dataShard_eq (encrypted : List Byte) (s i : Nat) :
    dataShard encrypted s i = resizeZero ((encrypted.drop (i * s)).take s) s := by
  unfold dataShard
  by_cases h : i * s < encrypted.length
  · have harg : min ((i + 1) * s) encrypted.length - i * s
        = min s (encrypted.length - i * s) := by
      have : (i + 1) * s = i * s + s := by ring
      omega
    simp only [if_pos h, harg]
    congr 1
    have hlen : (encrypted.drop (i * s)).length = encrypted.length - i * s := by simp
    rcases le_or_lt s (encrypted.length - i * s) with hc | hc
    · rw [min_eq_left hc]
    · rw [min_eq_right (le_of_lt hc), ← hlen, List.take_length,
        List.take_of_length_le (by omega)]
  · push_neg at h
    rw [if_neg (show ¬(i * s < encrypted.length) by omega), List.drop_eq_nil_of_le h]
    simp

theorem length_dataShards (encrypted : List Byte) :
    (dataShards encrypted).length = DATA_SHARDS := by
  simp [dataShards]

/-- Auxiliary closed form: flattening the first `k` shards yields the first
`k*s` ciphertext bytes, right-padded with zeros to `k*s`. -/
theorem flatten_shards_aux (E : List Byte) (s : Nat) (k : Nat) :
    ((List.range k).map (fun i => resizeZero ((E.drop (i * s)).take s) s)).flatten
      = resizeZero (E.take (k * s)) (k * s) := by
  induction k with
  | zero => simp [resizeZero]
  | succ k ih =>
    rw [List.range_succ, List.map_append, List.flatten_append, ih]
    simp only [List.map_cons, List.map_nil, List.flatten_cons, List.flatten_nil,
      List.append_nil]
    have hps : (k + 1) * s = k * s + s := by ring
    rcases le_or_lt ((k + 1) * s) E.length with hks | hks
    · -- the first k+1 slices all lie inside E, no padding yet
      have hk : k * s ≤ E.length := by omega
      have e1 : resizeZero (E.take (k * s)) (k * s) = E.take (k * s) :=
        resizeZero_of_length_eq _ _ (by rw [List.length_take]; omega)
      have hdlen : (E.drop (k * s)).length = E.length - k * s := by simp
      have e2 : resizeZero ((E.drop (k * s)).take s) s = (E.drop (k * s)).take s :=
        resizeZero_of_length_eq _ _ (by rw [List.length_take, hdlen]; omega)
      have e3 : resizeZero (E.take ((k + 1) * s)) ((k + 1) * s) = E.take ((k + 1) * s) :=
        resizeZero_of_length_eq _ _ (by rw [List.length_take]; omega)
      rw [e1, e2, e3, hps, List.take_add]
    · rcases le_or_lt (k * s) E.length with hk | hk
      · -- boundary slice: E ends inside slice k
        have e1 : resizeZero (E.take (k * s)) (k * s) = E.take (k * s) :=
          resizeZero_of_length_eq _ _ (by rw [List.length_take]; omega)
        have hdlen : (E.drop (k * s)).length = E.length - k * s := by simp
        have h2 : (E.drop (k * s)).take s = E.drop (k * s) := by
          apply List.take_of_length_le; omega
        have e2 : resizeZero ((E.drop (k * s)).take s) s
            = E.drop (k * s) ++ List.replicate (s - (E.length - k * s)) 0 := by
          rw [resizeZero_eq, h2, List.take_of_length_le (by omega), hdlen]
        have h3 : E.take ((k + 1) * s) = E := by
          apply List.take_of_length_le; omega
        have e3 : resizeZero (E.take ((k + 1) * s)) ((k + 1) * s)
            = E ++ List.replicate ((k + 1) * s - E.length) 0 := by
          rw [h3, resizeZero_eq, List.take_of_length_le (by omega)]
        rw [e1, e2, e3, ← List.append_assoc, List.take_append_drop]
        congr 2
        omega
      · -- E ended before slice k even starts: slice k is all padding
        have h2 : E.drop (k * s) = [] := List.drop_eq_nil_of_le (le_of_lt hk)
        have h3 : E.take (k * s) = E := List.take_of_length_le (le_of_lt hk)
        have h4 : E.take ((k + 1) * s) = E := by
          apply List.take_of_length_le; omega
        have e1 : resizeZero (E.take (k * s)) (k * s)
            = E ++ List.replicate (k * s - E.length) 0 := by
          rw [h3, resizeZero_eq, List.take_of_length_le (by omega)]
        have e2 : resizeZero ((E.drop (k * s)).take s) s = List.replicate s 0 := by
          rw [h2]
          simp [resizeZero]
        have e3 : resizeZero (E.take ((k + 1) * s)) ((k + 1) * s)
            = E ++ List.replicate ((k + 1) * s - E.length) 0 := by
          rw [h4, resizeZero_eq, List.take_of_length_le (by omega)]
        rw [e1, e2, e3, List.append_assoc, ← List.replicate_add]
        congr 2
        omega

/-- `DATA_SHARDS * shard_size n` covers `n`. -/
theorem le_mul_shard_size (n : Nat) : n ≤ DATA_SHARDS * shard_size n := by
  unfold shard_size DATA_SHARDS
  have h1 := Nat.div_add_mod (n + 6 - 1) 6
  have h2 := Nat.mod_lt (n + 6 - 1) (y := 6) (by omega)
  omega

/-- Flattening all `DATA_SHARDS` data shards gives the ciphertext followed by
the zero tail padding. -/
theorem flatten_dataShards (E : List Byte) :
    (dataShards E).flatten
      = E ++ List.replicate (DATA_SHARDS * shard_size E.length - E.length) 0 := by
  unfold dataShards
  have hcong : (List.range DATA_SHARDS).map (dataShard E (shard_size E.length))
      = (List.range DATA_SHARDS).map
          (fun i => resizeZero ((E.drop (i * shard_size E.length)).take (shard_size E.length))
            (shard_size E.length)) := by
    apply List.map_congr_left
    intro i _
    exact dataShard_eq E (shard_size E.length) i
  have hcover := le_mul_shard_size E.length
  rw [hcong, flatten_shards_aux, List.take_of_length_le hcover, resizeZero_eq,
    List.take_of_length_le hcover]

/-- Truncating the flattened data shards to the ciphertext length recovers the
ciphertext exactly (this is what download does at main.rs:813-826). -/
theorem flatten_dataShards_take (E : List Byte) :
    ((dataShards E).flatten).take E.length = E := by
  rw [flatten_dataShards]
  rw [show E.length = E.length + 0 from rfl, List.take_add]
  simp

theorem mem_dataShards_length (E : List Byte) :
    ∀ sh ∈ dataShards E, sh.length = shard_size E.length := by
  intro sh hsh
  unfold dataShards at hsh
  obtain ⟨i, _, rfl⟩ := List.mem_map.mp hsh
  rw [dataShard_eq]
  exact length_resizeZero _ _

theorem shard_size_pos (n : Nat) (hn : n ≠ 0) : shard_size n ≠ 0 := by
  unfold shard_size DATA_SHARDS
  have : 1 ≤ (n + 6 - 1) / 6 := (Nat.le_div_iff_mul_le (by omega)).mpr (by omega)
  omega

/-! ## Lemmas about file chunking -/

theorem chunksOf_nil (n : Nat) : chunksOf n [] = [] := by
  rw [chunksOf]
  simp

theorem chunksOf_cons (n : Nat) (l : List Byte) (hl : l ≠ []) (hn : n ≠ 0) :
    chunksOf n l = l.take n :: chunksOf n (l.drop n) := by
  rw [chunksOf, dif_neg (not_or.mpr ⟨hl, hn⟩)]

theorem chunksOf_flatten (n : Nat) (hn : n ≠ 0) (l : List Byte) :
    (chunksOf n l).flatten = l := by
  generalize hk : l.length = k
  induction k using Nat.strong_induction_on generalizing l with
  | _ k ih =>
    by_cases hl : l = []
    · subst hl
      simp [chunksOf_nil]
    · rw [chunksOf_cons n l hl hn]
      simp only [List.flatten_cons]
      have hpos : 0 < l.length := List.length_pos.mpr hl
      have hdrop : (l.drop n).length < k := by
        simp only [List.length_drop]
        omega
      rw [ih _ hdrop (l.drop n) rfl, List.take_append_drop]

theorem chunksOf_length (n : Nat) (hn : n ≠ 0) (l : List Byte) :
    (chunksOf n l).length = (l.length + n - 1) / n := by
  generalize hk : l.length = k
  induction k using Nat.strong_induction_on generalizing l with
  | _ k ih =>
    by_cases hl : l = []
    · subst hl
      have hk0 : k = 0 := by simpa using hk.symm
      subst hk0
      rw [chunksOf_nil, Nat.div_eq_of_lt (by omega)]
      rfl
    · have hpos : 0 < l.length := List.length_pos.mpr hl
      rw [chunksOf_cons n l hl hn]
      simp only [List.length_cons]
      have hdlen : (l.drop n).length = l.length - n := by simp
      rcases le_or_lt l.length n with hle | hlt
      · have hdnil : l.drop n = [] := List.drop_eq_nil_of_le hle
        rw [hdnil, chunksOf_nil]
        have h1 : (k + n - 1) / n = 1 := Nat.div_eq_of_lt_le (by omega) (by omega)
        simp [h1]
      · have hdrop : (l.drop n).length < k := by omega
        rw [ih _ hdrop (l.drop n) rfl, hdlen]
        have h1 : l.length - n + n - 1 = k - 1 := by omega
        have h2 : k + n - 1 = (k - 1) + n := by omega
        rw [h1, h2, Nat.add_div_right _ (by omega)]

theorem chunksOf_mem (n : Nat) (hn : n ≠ 0) (l : List Byte) :
    ∀ c ∈ chunksOf n l, c ≠ [] ∧ c.length ≤ n := by
  generalize hk : l.length = k
  induction k using Nat.strong_induction_on generalizing l with
  | _ k ih =>
    intro c hc
    by_cases hl : l = []
    · subst hl
      rw [chunksOf_nil] at hc
      simp at hc
    · have hpos : 0 < l.length := List.length_pos.mpr hl
      rw [chunksOf_cons n l hl hn] at hc
      rcases List.mem_cons.mp hc with rfl | htail
      · constructor
        · intro hnil
          have := congrArg List.length hnil
          simp only [List.length_take, List.length_nil] at this
          omega
        · simp
      · have hdrop : (l.drop n).length < k := by
          simp only [List.length_drop]
          omega
        exact ih _ hdrop (l.drop n) rfl c htail

theorem chunksOf_ne_nil (n : Nat) (l : List Byte) (hl : l ≠ []) (hn : n ≠ 0) :
    chunksOf n l ≠ [] := by
  rw [chunksOf_cons n l hl hn]
  simp

/-! ## Lemmas about the scatter loop -/

theorem mkLoc_chunk_index (env : UploadEnv) (peers : List Device) (c : Nat) (nonce : List Byte)
    (j : Nat) : (mkLoc env peers c nonce j).chunk_index = c := rfl

theorem mkLoc_shard_index (env : UploadEnv) (peers : List Device) (c : Nat) (nonce : List Byte)
    (j : Nat) : (mkLoc env peers c nonce j).shard_index = j := rfl

theorem mkLoc_shard_id (env : UploadEnv) (peers : List Device) (c : Nat) (nonce : List Byte)
    (j : Nat) : (mkLoc env peers c nonce j).shard_id = env.sid c j := rfl

theorem mkLoc_device_id (env : UploadEnv) (peers : List Device) (c : Nat) (nonce : List Byte)
    (j : Nat) :
    (mkLoc env peers c nonce j).device_id
      = (peers.getD (j % peers.length) ⟨"", "agent", "", 0⟩).device_id := rfl

/-- The scatter loop, fully characterised: shard `j` is attempted against
peer `j % |peers|`; a successful STORE appends its ShardLocation and stores
the bytes; a failed one is skipped. -/
theorem scatterGo_eq (env : UploadEnv) (peers : List Device) (c : Nat) (nonce : List Byte) :
    ∀ (shards : List (List Byte)) (j : Nat),
      scatterGo env peers c nonce j shards
        = (((shards.enumFrom j).filterMap
              (fun p => if env.storeOk c p.1 then some (mkLoc env peers c nonce p.1) else none)),
           ((shards.enumFrom j).filterMap
              (fun p => if env.storeOk c p.1 then some (env.sid c p.1, p.2) else none))) := by
  intro shards
  induction shards with
  | nil => intro j; simp [scatterGo]
  | cons sh rest ih =>
    intro j
    rw [scatterGo]
    simp only [List.enumFrom_cons, List.filterMap_cons, ih (j + 1)]
    by_cases hok : env.storeOk c j = true
    · simp [hok]
    · simp only [Bool.not_eq_true] at hok
      simp [hok]

theorem scatterGo_locs_allOk (env : UploadEnv) (peers : List Device) (c : Nat) (nonce : List Byte)
    (hok : ∀ j, env.storeOk c j = true) :
    ∀ (shards : List (List Byte)) (j : Nat),
      (scatterGo env peers c nonce j shards).1
        = (List.range' j shards.length).map (mkLoc env peers c nonce) := by
  intro shards
  induction shards with
  | nil => intro j; simp [scatterGo]
  | cons sh rest ih =>
    intro j
    rw [scatterGo]
    simp only [hok j, if_true, List.length_cons, List.range'_succ, List.map_cons]
    exact congrArg _ (ih (j + 1))

theorem mem_scatterGo_locs (env : UploadEnv) (peers : List Device) (c : Nat) (nonce : List Byte) :
    ∀ (shards : List (List Byte)) (j : Nat) (l : ShardLocation),
      l ∈ (scatterGo env peers c nonce j shards).1 → l.chunk_index = c := by
  intro shards
  induction shards with
  | nil => intro j l hl; simp [scatterGo] at hl
  | cons sh rest ih =>
    intro j l hl
    rw [scatterGo] at hl
    by_cases hok : env.storeOk c j = true
    · simp only [hok, if_true, List.mem_cons] at hl
      rcases hl with rfl | hl
      · rfl
      · exact ih (j + 1) l hl
    · simp only [Bool.not_eq_true] at hok
      simp only [hok, Bool.false_eq_true, if_false] at hl
      exact ih (j + 1) l hl

theorem filter_scatterGo_locs (env : UploadEnv) (peers : List Device) (c : Nat)
    (nonce : List Byte) (shards : List (List Byte)) (j k : Nat) :
    (scatterGo env peers c nonce j shards).1.filter (fun l => l.chunk_index == k)
      = if c = k then (scatterGo env peers c nonce j shards).1 else [] := by
  by_cases hck : c = k
  · subst hck
    rw [if_pos rfl, List.filter_eq_self]
    intro l hl
    rw [mem_scatterGo_locs env peers c nonce shards j l hl]
    exact beq_self_eq_true c
  · rw [if_neg hck, List.filter_eq_nil_iff.mpr]
    intro l hl
    rw [mem_scatterGo_locs env peers c nonce shards j l hl]
    simp only [beq_iff_eq]
    exact hck

theorem lookupStore_append (a b : List (String × List Byte)) (key : String) :
    lookupStore (a ++ b) key
      = match lookupStore a key with
        | some v => some v
        | none => lookupStore b key := by
  induction a with
  | nil => simp [lookupStore]
  | cons p rest ih =>
    rw [List.cons_append, lookupStore, lookupStore]
    by_cases h : p.1 == key
    · simp [h]
    · simp only [Bool.not_eq_true] at h
      simp [h, ih]

theorem lookup_scatterGo_stored_ne (env : UploadEnv) (peers : List Device) (c : Nat)
    (nonce : List Byte) (key : String) :
    ∀ (shards : List (List Byte)) (j : Nat),
      (∀ i, j ≤ i → i < j + shards.length → env.sid c i ≠ key) →
      lookupStore (scatterGo env peers c nonce j shards).2 key = none := by
  intro shards
  induction shards with
  | nil => intro j _; simp [scatterGo, lookupStore]
  | cons sh rest ih =>
    intro j hne
    rw [scatterGo]
    by_cases hok : env.storeOk c j = true
    · simp only [hok, if_true]
      rw [lookupStore, if_neg]
      · exact ih (j + 1)
          (fun i h1 h2 => hne i (by omega) (by simp only [List.length_cons]; omega))
      · rw [Bool.not_eq_true, beq_eq_false_iff_ne]
        exact hne j (le_refl j) (by simp only [List.length_cons]; omega)
    · simp only [Bool.not_eq_true] at hok
      simp only [hok, Bool.false_eq_true, if_false]
      exact ih (j + 1)
        (fun i h1 h2 => hne i (by omega) (by simp only [List.length_cons]; omega))

theorem lookup_scatterGo_stored_hit (env : UploadEnv) (peers : List Device) (c : Nat)
    (nonce : List Byte) (hok : ∀ i, env.storeOk c i = true) :
    ∀ (shards : List (List Byte)) (j t : Nat),
      j ≤ t → t < j + shards.length →
      (∀ i, j ≤ i → i < j + shards.length → env.sid c i = env.sid c t → i = t) →
      lookupStore (scatterGo env peers c nonce j shards).2 (env.sid c t)
        = some (shards.getD (t - j) []) := by
  intro shards
  induction shards with
  | nil => intro j t h1 h2; simp at h2; omega
  | cons sh rest ih =>
    intro j t h1 h2 hinj
    rw [scatterGo]
    simp only [hok j, if_true]
    rw [lookupStore]
    rcases Nat.eq_or_lt_of_le h1 with rfl | hlt
    · rw [if_pos (beq_self_eq_true _), Nat.sub_self, List.getD_cons_zero]
    · rw [if_neg]
      · have htail := ih (j + 1) t (by omega)
          (by simp only [List.length_cons] at h2; omega)
          (fun i hi1 hi2 => hinj i (by omega) (by simp only [List.length_cons]; omega))
        rw [htail]
        have : t - j = (t - (j + 1)) + 1 := by omega
        rw [this, List.getD_cons_succ]
      · rw [Bool.not_eq_true, beq_eq_false_iff_ne]
        intro heq
        have := hinj j (le_refl j) (by simp only [List.length_cons]; omega) heq
        omega

/-! ## Structure of the upload loop -/

theorem length_encodedOf (env : UploadEnv)
    (hrslen : ∀ ss, (env.rsEncode ss).length = ss.length) (c : Nat) (chunk : List Byte) :
    (encodedOf env c chunk).length = DATA_SHARDS + PARITY_SHARDS := by
  unfold encodedOf
  rw [hrslen]
  simp [length_dataShards]

theorem processChunk_eq (env : UploadEnv) (peers : List Device) (idx : Nat) (c : List Byte)
    (hct : ∀ non x, env.encChunk env.key non x ≠ []) :
    processChunk env peers idx c
      = Except.ok (⟨idx, (ctOf env idx c).length, env.nonceFor idx⟩,
          (scatterGo env peers idx (env.nonceFor idx) 0 (encodedOf env idx c)).1,
          (scatterGo env peers idx (env.nonceFor idx) 0 (encodedOf env idx c)).2) := by
  unfold processChunk
  have hne : (env.encChunk env.key (env.nonceFor idx) (env.compress c)).length ≠ 0 := by
    intro hzero
    exact hct (env.nonceFor idx) (env.compress c) (List.length_eq_zero.mp hzero)
  rw [if_neg (shard_size_pos _ hne)]
  rfl

theorem uploadChunks_eq (env : UploadEnv) (peers : List Device)
    (hct : ∀ non x, env.encChunk env.key non x ≠ []) :
    ∀ (chunks : List (List Byte)) (idx : Nat),
      uploadChunks env peers idx chunks
        = Except.ok (cisOfGo env idx chunks, locsOfGo env peers idx chunks,
            netOfGo env peers idx chunks) := by
  intro chunks
  induction chunks with
  | nil => intro idx; rfl
  | cons c rest ih =>
    intro idx
    rw [uploadChunks, processChunk_eq env peers idx c hct, ih (idx + 1)]
    rfl

theorem filter_locsOfGo (env : UploadEnv) (peers : List Device) :
    ∀ (chunks : List (List Byte)) (idx k : Nat),
      (locsOfGo env peers idx chunks).filter (fun l => l.chunk_index == k)
        = if idx ≤ k ∧ k < idx + chunks.length then
            (scatterGo env peers k (env.nonceFor k) 0
              (encodedOf env k (chunks.getD (k - idx) []))).1
          else [] := by
  intro chunks
  induction chunks with
  | nil =>
    intro idx k
    simp only [locsOfGo, List.filter_nil]
    rw [if_neg (by simp only [List.length_nil]; omega)]
  | cons c rest ih =>
    intro idx k
    simp only [locsOfGo]
    rw [List.filter_append, filter_scatterGo_locs env peers idx _ _ 0 k, ih (idx + 1) k]
    by_cases hik : idx = k
    · subst hik
      rw [if_pos rfl, if_neg (by omega), if_pos (by simp only [List.length_cons]; omega)]
      simp
    · rw [if_neg hik]
      simp only [List.nil_append]
      by_cases hk : idx + 1 ≤ k ∧ k < idx + 1 + rest.length
      · rw [if_pos hk, if_pos (by simp only [List.length_cons]; omega)]
        have hsub : k - idx = (k - (idx + 1)) + 1 := by omega
        rw [hsub, List.getD_cons_succ]
      · rw [if_neg hk, if_neg (by simp only [List.length_cons]; omega)]

theorem find_cisOfGo (env : UploadEnv) :
    ∀ (chunks : List (List Byte)) (idx k : Nat), idx ≤ k → k < idx + chunks.length →
      (cisOfGo env idx chunks).find? (fun ci => ci.chunk_index == k)
        = some ⟨k, (ctOf env k (chunks.getD (k - idx) [])).length, env.nonceFor k⟩ := by
  intro chunks
  induction chunks with
  | nil =>
    intro idx k h1 h2
    simp only [List.length_nil] at h2
    omega
  | cons c rest ih =>
    intro idx k h1 h2
    simp only [cisOfGo]
    rcases Nat.eq_or_lt_of_le h1 with rfl | hlt
    · rw [List.find?_cons_of_pos _ (by
        show ((⟨idx, (ctOf env idx c).length, env.nonceFor idx⟩ : ChunkInfo).chunk_index
          == idx) = true
        exact beq_self_eq_true idx)]
      simp
    · rw [List.find?_cons_of_neg _ (by
        show ¬((⟨idx, (ctOf env idx c).length, env.nonceFor idx⟩ : ChunkInfo).chunk_index
          == k) = true
        rw [Bool.not_eq_true, beq_eq_false_iff_ne]
        show idx ≠ k
        omega)]
      rw [ih (idx + 1) k (by omega) (by simp only [List.length_cons] at h2; omega)]
      have hsub : k - idx = (k - (idx + 1)) + 1 := by omega
      rw [hsub, List.getD_cons_succ]

theorem lookup_netOfGo (env : UploadEnv) (peers : List Device)
    (hok : ∀ c j, env.storeOk c j = true)
    (hrslen : ∀ ss, (env.rsEncode ss).length = ss.length) :
    ∀ (chunks : List (List Byte)) (idx k t B : Nat),
      idx ≤ k → k < idx + chunks.length → idx + chunks.length ≤ B →
      t < DATA_SHARDS + PARITY_SHARDS →
      (∀ c i c' i', c < B → i < DATA_SHARDS + PARITY_SHARDS → c' < B →
        i' < DATA_SHARDS + PARITY_SHARDS → env.sid c i = env.sid c' i' → c = c' ∧ i = i') →
      lookupStore (netOfGo env peers idx chunks) (env.sid k t)
        = some ((encodedOf env k (chunks.getD (k - idx) [])).getD t []) := by
  intro chunks
  induction chunks with
  | nil =>
    intro idx k t B h1 h2
    simp only [List.length_nil] at h2
    omega
  | cons c rest ih =>
    intro idx k t B h1 h2 hB ht hinj
    simp only [netOfGo]
    rw [lookupStore_append]
    have hlen := length_encodedOf env hrslen idx c
    simp only [List.length_cons] at h2 hB
    rcases Nat.eq_or_lt_of_le h1 with rfl | hlt
    · have hhit := lookup_scatterGo_stored_hit env peers idx (env.nonceFor idx) (hok idx)
        (encodedOf env idx c) 0 t (Nat.zero_le t) (by omega)
        (fun i hi1 hi2 heq => by
          have hr := hinj idx i idx t (by omega) (by omega) (by omega) ht heq
          exact hr.2)
      rw [hhit]
      simp
    · have hmiss := lookup_scatterGo_stored_ne env peers idx (env.nonceFor idx) (env.sid k t)
        (encodedOf env idx c) 0
        (fun i hi1 hi2 heq => by
          have hr := hinj idx i k t (by omega) (by omega) (by omega) ht heq
          omega)
      rw [hmiss]
      rw [ih (idx + 1) k t B (by omega) (by omega) (by omega) ht hinj]
      have hsub : k - idx = (k - (idx + 1)) + 1 := by omega
      rw [hsub, List.getD_cons_succ]

/-! ## Download correctness against an upload-produced manifest -/

theorem rsReconstructFull_ok (ss : Nat) (l : List (List Byte)) (hss : ss ≠ 0)
    (hlen : l.length = DATA_SHARDS + PARITY_SHARDS) (hall : ∀ sh ∈ l, sh.length = ss) :
    rsReconstructFull ss l = Except.ok l := by
  unfold rsReconstructFull
  rw [if_neg hss, if_neg (show ¬(l.length ≠ DATA_SHARDS + PARITY_SHARDS) from fun hne => hne hlen),
    if_pos]
  rw [List.all_eq_true]
  intro sh hsh
  rw [beq_iff_eq]
  exact hall sh hsh

theorem downloadChunk_of_upload (env : UploadEnv) (peers : List Device)
    (chunks : List (List Byte)) (m : Manifest) (k : Nat)
    (hmap : m.shard_map = locsOfGo env peers 0 chunks)
    (hcis : m.chunks = cisOfGo env 0 chunks)
    (hkey : m.encryption_key = env.key)
    (hk : k < chunks.length)
    (hok : ∀ c j, env.storeOk c j = true)
    (hinj : ∀ c i c' i', c < chunks.length → i < DATA_SHARDS + PARITY_SHARDS →
      c' < chunks.length → i' < DATA_SHARDS + PARITY_SHARDS →
      env.sid c i = env.sid c' i' → c = c' ∧ i = i')
    (hct : ∀ non x, env.encChunk env.key non x ≠ [])
    (hrs6 : ∀ ss, (env.rsEncode ss).take DATA_SHARDS = ss.take DATA_SHARDS)
    (hrslen : ∀ ss, (env.rsEncode ss).length = ss.length)
    (hdec : ∀ non x, env.decChunk env.key non (env.encChunk env.key non x) = some x)
    (hcomp : ∀ x, x.length ≤ LZ4_LIMIT → env.decompress LZ4_LIMIT (env.compress x) = some x)
    (hchlen : (chunks.getD k []).length ≤ LZ4_LIMIT) :
    downloadChunk env (netOfGo env peers 0 chunks) m k = Except.ok (chunks.getD k []) := by
  have hctne : ctOf env k (chunks.getD k []) ≠ [] := hct _ _
  have hctlen : (ctOf env k (chunks.getD k [])).length ≠ 0 := by
    intro h0
    exact hctne (List.length_eq_zero.mp h0)
  have hs : shard_size (ctOf env k (chunks.getD k [])).length ≠ 0 := shard_size_pos _ hctlen
  have hencl := length_encodedOf env hrslen k (chunks.getD k [])
  have htake6 : (encodedOf env k (chunks.getD k [])).take DATA_SHARDS
      = dataShards (ctOf env k (chunks.getD k [])) := by
    unfold encodedOf
    rw [hrs6]
    rw [show DATA_SHARDS = (dataShards (ctOf env k (chunks.getD k []))).length from
      (length_dataShards _).symm, List.take_left]
  have hgetd : ∀ t, t < DATA_SHARDS →
      (encodedOf env k (chunks.getD k [])).getD t []
        = dataShard (ctOf env k (chunks.getD k []))
            (shard_size (ctOf env k (chunks.getD k [])).length) t := by
    intro t ht
    rw [List.getD_eq_getElem?_getD]
    have h1 : (encodedOf env k (chunks.getD k []))[t]?
        = ((encodedOf env k (chunks.getD k [])).take DATA_SHARDS)[t]? := by
      rw [List.getElem?_take, if_pos ht]
    rw [h1, htake6]
    unfold dataShards
    rw [List.getElem?_map, List.getElem?_range ht]
    rfl
  have hlent : ∀ t, t < DATA_SHARDS →
      ((encodedOf env k (chunks.getD k [])).getD t []).length
        = shard_size (ctOf env k (chunks.getD k [])).length := by
    intro t ht
    rw [hgetd t ht, dataShard_eq, length_resizeZero]
  have hlook : ∀ t, t < DATA_SHARDS + PARITY_SHARDS →
      lookupStore (netOfGo env peers 0 chunks) (env.sid k t)
        = some ((encodedOf env k (chunks.getD k [])).getD t []) := by
    intro t ht
    have h := lookup_netOfGo env peers hok hrslen chunks 0 k t chunks.length
      (Nat.zero_le k) (by omega) (by omega) ht hinj
    simpa using h
  have hfilter : m.shard_map.filter (fun l => l.chunk_index == k)
      = (List.range' 0 (DATA_SHARDS + PARITY_SHARDS)).map
          (mkLoc env peers k (env.nonceFor k)) := by
    rw [hmap, filter_locsOfGo env peers chunks 0 k, if_pos (by omega)]
    simp only [Nat.sub_zero]
    rw [scatterGo_locs_allOk env peers k (env.nonceFor k) (hok k), hencl]
  have h0 := hlook 0 (by norm_num [DATA_SHARDS, PARITY_SHARDS])
  have h1 := hlook 1 (by norm_num [DATA_SHARDS, PARITY_SHARDS])
  have h2 := hlook 2 (by norm_num [DATA_SHARDS, PARITY_SHARDS])
  have h3 := hlook 3 (by norm_num [DATA_SHARDS, PARITY_SHARDS])
  have h4 := hlook 4 (by norm_num [DATA_SHARDS, PARITY_SHARDS])
  have h5 := hlook 5 (by norm_num [DATA_SHARDS, PARITY_SHARDS])
  have hfold : fetchChunkShards (netOfGo env peers 0 chunks)
      ((List.range' 0 (DATA_SHARDS + PARITY_SHARDS)).map (mkLoc env peers k (env.nonceFor k)))
      = ([some ((encodedOf env k (chunks.getD k [])).getD 0 []),
          some ((encodedOf env k (chunks.getD k [])).getD 1 []),
          some ((encodedOf env k (chunks.getD k [])).getD 2 []),
          some ((encodedOf env k (chunks.getD k [])).getD 3 []),
          some ((encodedOf env k (chunks.getD k [])).getD 4 []),
          some ((encodedOf env k (chunks.getD k [])).getD 5 []),
          none, none, none, none], 6) := by
    unfold fetchChunkShards
    rw [show List.range' 0 (DATA_SHARDS + PARITY_SHARDS) = [0, 1, 2, 3, 4, 5, 6, 7, 8, 9]
        from rfl,
      show (List.replicate (DATA_SHARDS + PARITY_SHARDS) (none : Option (List Byte)))
          = [none, none, none, none, none, none, none, none, none, none] from rfl]
    simp only [List.map_cons, List.map_nil, List.foldl_cons, List.foldl_nil,
      mkLoc_shard_id, mkLoc_shard_index, DATA_SHARDS,
      h0, h1, h2, h3, h4, h5, List.set_cons_zero, List.set_cons_succ,
      Nat.reduceAdd, Nat.reduceLeDiff, reduceIte]
  have hcifind : m.chunks.find? (fun ci => ci.chunk_index == k)
      = some ⟨k, (ctOf env k (chunks.getD k [])).length, env.nonceFor k⟩ := by
    rw [hcis, find_cisOfGo env chunks 0 k (Nat.zero_le k) (by omega)]
    simp
  have hssize : ((encodedOf env k (chunks.getD k [])).getD 0 []).length
      = shard_size (ctOf env k (chunks.getD k [])).length :=
    hlent 0 (by norm_num [DATA_SHARDS])
  have hjoin : ([(encodedOf env k (chunks.getD k [])).getD 0 [],
      (encodedOf env k (chunks.getD k [])).getD 1 [],
      (encodedOf env k (chunks.getD k [])).getD 2 [],
      (encodedOf env k (chunks.getD k [])).getD 3 [],
      (encodedOf env k (chunks.getD k [])).getD 4 [],
      (encodedOf env k (chunks.getD k [])).getD 5 []]
        : List (List Byte))
      = dataShards (ctOf env k (chunks.getD k [])) := by
    rw [hgetd 0 (by norm_num [DATA_SHARDS]), hgetd 1 (by norm_num [DATA_SHARDS]),
      hgetd 2 (by norm_num [DATA_SHARDS]), hgetd 3 (by norm_num [DATA_SHARDS]),
      hgetd 4 (by norm_num [DATA_SHARDS]), hgetd 5 (by norm_num [DATA_SHARDS])]
    rfl
  have hrecon := rsReconstructFull_ok
    ((encodedOf env k (chunks.getD k [])).getD 0 []).length
    [(encodedOf env k (chunks.getD k [])).getD 0 [],
     (encodedOf env k (chunks.getD k [])).getD 1 [],
     (encodedOf env k (chunks.getD k [])).getD 2 [],
     (encodedOf env k (chunks.getD k [])).getD 3 [],
     (encodedOf env k (chunks.getD k [])).getD 4 [],
     (encodedOf env k (chunks.getD k [])).getD 5 [],
     List.replicate ((encodedOf env k (chunks.getD k [])).getD 0 []).length 0,
     List.replicate ((encodedOf env k (chunks.getD k [])).getD 0 []).length 0,
     List.replicate ((encodedOf env k (chunks.getD k [])).getD 0 []).length 0,
     List.replicate ((encodedOf env k (chunks.getD k [])).getD 0 []).length 0]
    (by rw [hssize]; exact hs)
    (by norm_num [DATA_SHARDS, PARITY_SHARDS])
    (by
      intro sh hsh
      simp only [List.mem_cons, List.not_mem_nil, or_false] at hsh
      rcases hsh with rfl | rfl | rfl | rfl | rfl | rfl | rfl | rfl | rfl | rfl
      · rfl
      · rw [hlent 1 (by norm_num [DATA_SHARDS]), hssize]
      · rw [hlent 2 (by norm_num [DATA_SHARDS]), hssize]
      · rw [hlent 3 (by norm_num [DATA_SHARDS]), hssize]
      · rw [hlent 4 (by norm_num [DATA_SHARDS]), hssize]
      · rw [hlent 5 (by norm_num [DATA_SHARDS]), hssize]
      · exact List.length_replicate _ _
      · exact List.length_replicate _ _
      · exact List.length_replicate _ _
      · exact List.length_replicate _ _)
  simp only [downloadChunk]
  rw [hfilter, hfold]
  rw [if_neg (show ¬((6 : Nat) < DATA_SHARDS) by norm_num [DATA_SHARDS])]
  simp only [List.findSome?_cons, id_eq, List.map_cons, List.map_nil,
    Option.getD_some, Option.getD_none]
  rw [hrecon]
  simp only [hcifind]
  rw [show DATA_SHARDS = 6 from rfl]
  simp only [List.take_succ_cons, List.take_zero]
  rw [hjoin, flatten_dataShards_take, hkey]
  rw [show ctOf env k (chunks.getD k [])
      = env.encChunk env.key (env.nonceFor k) (env.compress (chunks.getD k [])) from rfl]
  rw [hdec]
  simp only [hcomp _ hchlen]

theorem downloadChunks_ok (env : UploadEnv) (net : List (String × List Byte)) (m : Manifest)
    (chunks : List (List Byte))
    (hper : ∀ k, k < chunks.length → downloadChunk env net m k = Except.ok (chunks.getD k [])) :
    ∀ K, K ≤ chunks.length →
      downloadChunks env net m K = Except.ok ((chunks.take K).flatten) := by
  intro K
  induction K with
  | zero => intro _; rfl
  | succ k ih =>
    intro hK
    rw [downloadChunks, ih (by omega)]
    simp only [hper k (by omega)]
    have hgd : chunks.getD k [] = chunks[k] := List.getD_eq_getElem chunks [] (by omega)
    rw [List.take_succ, List.flatten_append]
    simp [hgd, List.getElem?_eq_getElem (show k < chunks.length by omega)]

/-- `upload` in closed form, given at least one peer: an error exactly when
the total shard_map is below `DATA_SHARDS` (the source's aggregate check at
main.rs:629-633), otherwise the manifest/network pair. -/
theorem upload_eq (env : UploadEnv) (peers : List Device) (sf : Option String)
    (tags : List String) (file : List Byte)
    (hpe : peers ≠ [])
    (hct : ∀ non x, env.encChunk env.key non x ≠ []) :
    upload env peers sf tags file
      = if (locsOfGo env peers 0 (chunksOf CHUNK file)).length < DATA_SHARDS then
          Except.error ("Not enough shards stored: "
            ++ toString (locsOfGo env peers 0 (chunksOf CHUNK file)).length ++ "/"
            ++ toString DATA_SHARDS)
        else
          Except.ok
            ({ file_id := env.file_id
               original_name := env.original_name
               file_size := file.length
               chunk_count := chunk_count_of file.length
               encryption_key := env.key
               shard_map := locsOfGo env peers 0 (chunksOf CHUNK file)
               chunks := cisOfGo env 0 (chunksOf CHUNK file)
               sync_folder := sf
               tags := tags
               created_at := env.created_at
               last_verified := none }, netOfGo env peers 0 (chunksOf CHUNK file)) := by
  have hempty : peers.isEmpty = false := by
    cases peers with
    | nil => exact absurd rfl hpe
    | cons p ps => rfl
  unfold upload
  rw [hempty, uploadChunks_eq env peers hct (chunksOf CHUNK file) 0]
  rfl

theorem download_of (env : UploadEnv) (net : List (String × List Byte)) (m : Manifest)
    (chunks : List (List Byte))
    (hcc : m.chunk_count = chunks.length)
    (hfs : m.file_size = chunks.flatten.length)
    (hper : ∀ k, k < chunks.length →
      downloadChunk env net m k = Except.ok (chunks.getD k [])) :
    download env net m = Except.ok chunks.flatten := by
  unfold download
  rw [hcc, downloadChunks_ok env net m chunks hper chunks.length (le_refl _),
    List.take_length, hfs]
  simp

theorem upload_download_ok (env : UploadEnv) (peers : List Device) (sf : Option String)
    (tags : List String) (file : List Byte)
    (hfile : file ≠ [])
    (hpeers : DATA_SHARDS ≤ peers.length)
    (hok : ∀ c j, env.storeOk c j = true)
    (hinj : ∀ c i c' i', c < chunk_count_of file.length → i < DATA_SHARDS + PARITY_SHARDS →
      c' < chunk_count_of file.length → i' < DATA_SHARDS + PARITY_SHARDS →
      env.sid c i = env.sid c' i' → c = c' ∧ i = i')
    (hct : ∀ non x, env.encChunk env.key non x ≠ [])
    (hrs6 : ∀ ss, (env.rsEncode ss).take DATA_SHARDS = ss.take DATA_SHARDS)
    (hrslen : ∀ ss, (env.rsEncode ss).length = ss.length)
    (hdec : ∀ non x, env.decChunk env.key non (env.encChunk env.key non x) = some x)
    (hcomp : ∀ x, x.length ≤ LZ4_LIMIT → env.decompress LZ4_LIMIT (env.compress x) = some x) :
    ∃ m net, upload env peers sf tags file = Except.ok (m, net)
      ∧ download env net m = Except.ok file := by
  have hC : (CHUNK : Nat) ≠ 0 := by norm_num [CHUNK]
  have hpe : peers ≠ [] := by
    intro hnil
    rw [hnil] at hpeers
    norm_num [DATA_SHARDS] at hpeers
  have hchlen_eq : (chunksOf CHUNK file).length = chunk_count_of file.length := by
    rw [chunksOf_length CHUNK hC file]
    rfl
  have hchne : chunksOf CHUNK file ≠ [] := chunksOf_ne_nil CHUNK file hfile hC
  obtain ⟨c0, rest, hcr⟩ := List.exists_cons_of_ne_nil hchne
  have hblock : (scatterGo env peers 0 (env.nonceFor 0) 0 (encodedOf env 0 c0)).1.length
      = DATA_SHARDS + PARITY_SHARDS := by
    rw [scatterGo_locs_allOk env peers 0 (env.nonceFor 0) (hok 0)]
    rw [List.length_map, List.length_range', length_encodedOf env hrslen 0 c0]
  have hlocs_len : DATA_SHARDS ≤ (locsOfGo env peers 0 (chunksOf CHUNK file)).length := by
    rw [hcr]
    simp only [locsOfGo, List.length_append]
    rw [hblock]
    omega
  have hup := upload_eq env peers sf tags file hpe hct
  rw [if_neg (by omega)] at hup
  refine ⟨_, _, hup, ?_⟩
  have hper : ∀ k, k < (chunksOf CHUNK file).length →
      downloadChunk env (netOfGo env peers 0 (chunksOf CHUNK file))
        ({ file_id := env.file_id
           original_name := env.original_name
           file_size := file.length
           chunk_count := chunk_count_of file.length
           encryption_key := env.key
           shard_map := locsOfGo env peers 0 (chunksOf CHUNK file)
           chunks := cisOfGo env 0 (chunksOf CHUNK file)
           sync_folder := sf
           tags := tags
           created_at := env.created_at
           last_verified := none } : Manifest) k
        = Except.ok ((chunksOf CHUNK file).getD k []) := by
    intro k hk
    apply downloadChunk_of_upload env peers (chunksOf CHUNK file) _ k rfl rfl rfl hk hok
      (by rw [hchlen_eq]; exact hinj) hct hrs6 hrslen hdec hcomp
    have hmem : (chunksOf CHUNK file).getD k [] ∈ chunksOf CHUNK file := by
      rw [List.getD_eq_getElem _ [] hk]
      exact List.getElem_mem hk
    have hle := (chunksOf_mem CHUNK hC file _ hmem).2
    calc ((chunksOf CHUNK file).getD k []).length ≤ CHUNK := hle
      _ ≤ LZ4_LIMIT := by norm_num [CHUNK, LZ4_LIMIT]
  have hdl := download_of env (netOfGo env peers 0 (chunksOf CHUNK file)) _
    (chunksOf CHUNK file) hchlen_eq.symm
    (by rw [chunksOf_flatten CHUNK hC file])
    hper
  rw [hdl, chunksOf_flatten CHUNK hC file]

/-! ## Auxiliary facts for the remaining claims -/

theorem upload_nil_eq (env : UploadEnv) (peers : List Device) (sf : Option String)
    (tags : List String) (hpe : peers ≠ []) :
    upload env peers sf tags [] = Except.error "Not enough shards stored: 0/6" := by
  have hempty : peers.isEmpty = false := by
    cases peers with
    | nil => exact absurd rfl hpe
    | cons p ps => rfl
  have h0 : uploadChunks env peers 0 (chunksOf CHUNK ([] : List Byte))
      = Except.ok ([], [], []) := by
    rw [chunksOf_nil]
    rfl
  unfold upload
  rw [hempty, h0]
  rfl

theorem chunksOf_fileC2 : chunksOf CHUNK fileC2 = [List.replicate CHUNK 37, [37]] := by
  unfold fileC2
  rw [chunksOf_cons CHUNK _
    (by
      intro hnil
      have hlen := congrArg List.length hnil
      rw [List.length_replicate] at hlen
      simp at hlen)
    (by norm_num [CHUNK])]
  rw [List.take_replicate, List.drop_replicate,
    show min CHUNK (CHUNK + 1) = CHUNK from by omega,
    show CHUNK + 1 - CHUNK = 1 from by omega,
    show List.replicate 1 (37 : Byte) = [37] from rfl]
  rw [chunksOf_cons CHUNK [37] (by simp) (by norm_num [CHUNK]),
    show List.take CHUNK [37] = ([37] : List Byte) from rfl,
    show List.drop CHUNK [37] = ([] : List Byte) from rfl,
    chunksOf_nil]

theorem countHealth_foldl (results : List (Except String Bool)) :
    ∀ a b : Nat,
      results.foldl
        (fun acc r =>
          match r with
          | Except.ok true => (acc.1 + 1, acc.2)
          | Except.ok false => (acc.1, acc.2 + 1)
          | Except.error _ => (acc.1, acc.2 + 1)) (a, b)
      = (a + results.countP (fun r => decide (r = Except.ok true)),
         b + results.countP (fun r => !(decide (r = Except.ok true)))) := by
  induction results with
  | nil =>
    intro a b
    simp
  | cons r rest ih =>
    intro a b
    cases r with
    | ok bb =>
      cases bb with
      | true =>
        simp only [List.foldl_cons]
        rw [ih (a + 1) b, List.countP_cons, List.countP_cons]
        have hp : decide ((Except.ok true : Except String Bool) = Except.ok true) = true := by
          decide
        rw [hp, Prod.mk.injEq]
        constructor <;> (try simp) <;> omega
      | false =>
        simp only [List.foldl_cons]
        rw [ih a (b + 1), List.countP_cons, List.countP_cons]
        have hp : decide ((Except.ok false : Except String Bool) = Except.ok true) = false := by
          decide
        rw [hp, Prod.mk.injEq]
        constructor <;> (try simp) <;> omega
    | error e =>
      simp only [List.foldl_cons]
      rw [ih a (b + 1), List.countP_cons, List.countP_cons]
      have hp : decide ((Except.error e : Except String Bool) = Except.ok true) = false :=
        decide_eq_false (by simp)
      rw [hp, Prod.mk.injEq]
      constructor <;> (try simp) <;> omega

theorem countHealth_eq (results : List (Except String Bool)) :
    countHealth results
      = (results.countP (fun r => decide (r = Except.ok true)),
         results.countP (fun r => !(decide (r = Except.ok true)))) := by
  unfold countHealth
  rw [countHealth_foldl results 0 0]
  simp

theorem countHealth_snd_zero (results : List (Except String Bool)) :
    (countHealth results).2 = 0 ↔ ∀ r ∈ results, r = Except.ok true := by
  rw [countHealth_eq]
  simp only []
  rw [List.countP_eq_zero]
  constructor
  · intro h r hr
    have hb := h r hr
    simp only [Bool.not_eq_true', Bool.not_eq_false, decide_eq_true_eq] at hb
    exact hb
  · intro h r hr
    rw [h r hr]
    simp

theorem readLine_append (S tail : List Byte) (hS : ∀ b ∈ S, b ≠ 10 ∧ b ≠ 0) :
    readLine (S ++ 10 :: tail) = S := by
  induction S with
  | nil => rfl
  | cons b rest ih =>
    rw [List.cons_append, readLine]
    have hb := hS b (List.mem_cons_self b rest)
    rw [if_neg (by
      simp only [Bool.or_eq_true, beq_iff_eq]
      rintro (h10 | h0)
      · exact hb.1 h10
      · exact hb.2 h0)]
    rw [ih (fun x hx => hS x (List.mem_cons_of_mem b hx))]

/-! # Claim theorems -/

/-- C1, counterexample: the round-trip law fails as stated for the empty
byte sequence. With six reachable peers, `upload` of an empty file computes
zero chunks, stores zero shards and returns the error
`Not enough shards stored: 0/6` (main.rs:631-632) instead of a FileId, so
no download can return the input. -/
theorem c1_empty_file_counterexample :
    upload envW peersW none [] [] = Except.error "Not enough shards stored: 0/6" :=
  upload_nil_eq envW peersW none [] (by decide)

/-- C1, amended to non-empty inputs: for every non-empty byte sequence and
at least `DATA_SHARDS` reachable peers — every STORE succeeding with
distinct minted shard ids, and the LZ4 / ChaCha20-Poly1305 / Reed-Solomon
primitives meeting their library contracts — `upload` succeeds and
`download` of the produced manifest returns exactly the input bytes. -/
theorem c1_roundtrip_nonempty (env : UploadEnv) (peers : List Device) (sf : Option String)
    (tags : List String) (file : List Byte)
    (hfile : file ≠ [])
    (hpeers : DATA_SHARDS ≤ peers.length)
    (hok : ∀ c j, env.storeOk c j = true)
    (hinj : ∀ c i c' i', c < chunk_count_of file.length → i < DATA_SHARDS + PARITY_SHARDS →
      c' < chunk_count_of file.length → i' < DATA_SHARDS + PARITY_SHARDS →
      env.sid c i = env.sid c' i' → c = c' ∧ i = i')
    (hct : ∀ non x, env.encChunk env.key non x ≠ [])
    (hrs6 : ∀ ss, (env.rsEncode ss).take DATA_SHARDS = ss.take DATA_SHARDS)
    (hrslen : ∀ ss, (env.rsEncode ss).length = ss.length)
    (hdec : ∀ non x, env.decChunk env.key non (env.encChunk env.key non x) = some x)
    (hcomp : ∀ x, x.length ≤ LZ4_LIMIT → env.decompress LZ4_LIMIT (env.compress x) = some x) :
    ∃ m net, upload env peers sf tags file = Except.ok (m, net)
      ∧ download env net m = Except.ok file :=
  upload_download_ok env peers sf tags file hfile hpeers hok hinj hct hrs6 hrslen hdec hcomp

theorem c1_roundtrip_witness :
    ∃ m net, upload envW peersW none [] [1, 2, 3] = Except.ok (m, net)
      ∧ download envW net m = Except.ok [1, 2, 3] :=
  c1_roundtrip_nonempty envW peersW none [] [1, 2, 3]
    (by decide)
    (by decide)
    (fun _ _ => rfl)
    (by
      intro c i c' i' hc hi hc' hi' heq
      have hcc : chunk_count_of ([1, 2, 3] : List Byte).length = 1 := by
        norm_num [chunk_count_of, CHUNK]
      rw [hcc] at hc hc'
      have h10 : DATA_SHARDS + PARITY_SHARDS = 10 := rfl
      rw [h10] at hi hi'
      have hc0 : c = 0 := by omega
      have hc0' : c' = 0 := by omega
      subst hc0
      subst hc0'
      refine ⟨rfl, ?_⟩
      revert heq
      interval_cases i <;> interval_cases i' <;> decide)
    (by intro non x; simp [envW])
    (fun ss => rfl)
    (fun ss => rfl)
    (by intro non x; simp [envW])
    (by
      intro x hx
      simp only [envW]
      rw [if_pos hx])

/-- C2, counterexample: a two-chunk upload in which chunk 0 records only 3
ShardLocations (3 < D) while chunk 1 records 10. The source checks only the
aggregate `shard_map.len()` (main.rs:629-631), 13 ≥ 6, so upload succeeds
and the manifest IS persisted: a per-chunk shortfall does not abort the
upload, contrary to the claim. -/
theorem c2_per_chunk_counterexample :
    (upload envC2 peersW none [] fileC2).isOk = true
      ∧ resultChunkLocCount (upload envC2 peersW none [] fileC2) 0 = 3
      ∧ 3 < DATA_SHARDS := by
  have hct : ∀ non x, envC2.encChunk envC2.key non x ≠ [] := by
    intro non x
    simp [envC2]
  have hup := upload_eq envC2 peersW none [] fileC2 (by decide) hct
  rw [chunksOf_fileC2] at hup
  rw [show (locsOfGo envC2 peersW 0 [List.replicate CHUNK 37, [37]]).length = 13 from rfl]
    at hup
  rw [if_neg (by norm_num [DATA_SHARDS])] at hup
  refine ⟨by rw [hup]; rfl, by rw [hup]; rfl, by norm_num [DATA_SHARDS]⟩

/-- C2, amended: `upload` aborts with the insufficient-placement error iff
the TOTAL number of ShardLocations recorded across all chunks is below
`DATA_SHARDS`; the check is on the aggregate shard map, not per chunk, and
only the `Except.ok` branch (which requires the aggregate ≥ D) reaches
`db.store_manifest`. -/
theorem c2_total_threshold (env : UploadEnv) (peers : List Device) (sf : Option String)
    (tags : List String) (file : List Byte)
    (hpe : peers ≠ [])
    (hct : ∀ non x, env.encChunk env.key non x ≠ []) :
    ((upload env peers sf tags file).isOk = false
      ↔ (locsOfGo env peers 0 (chunksOf CHUNK file)).length < DATA_SHARDS)
    ∧ ∀ m net, upload env peers sf tags file = Except.ok (m, net) →
        m.shard_map = locsOfGo env peers 0 (chunksOf CHUNK file)
        ∧ DATA_SHARDS ≤ m.shard_map.length := by
  rw [upload_eq env peers sf tags file hpe hct]
  by_cases h : (locsOfGo env peers 0 (chunksOf CHUNK file)).length < DATA_SHARDS
  · rw [if_pos h]
    refine ⟨iff_of_true rfl h, ?_⟩
    intro m net hmn
    exact absurd hmn (by simp)
  · rw [if_neg h]
    refine ⟨iff_of_false (by simp [Except.isOk, Except.toBool]) h, ?_⟩
    intro m net hmn
    have hpair := Except.ok.inj hmn
    rw [Prod.mk.injEq] at hpair
    obtain ⟨h1, h2⟩ := hpair
    subst h1
    refine ⟨rfl, ?_⟩
    show DATA_SHARDS ≤ (locsOfGo env peers 0 (chunksOf CHUNK file)).length
    omega

theorem c2_total_threshold_witness :
    ((upload envW peersW none [] [1, 2, 3]).isOk = false
      ↔ (locsOfGo envW peersW 0 (chunksOf CHUNK [1, 2, 3])).length < DATA_SHARDS)
    ∧ ∀ m net, upload envW peersW none [] [1, 2, 3] = Except.ok (m, net) →
        m.shard_map = locsOfGo envW peersW 0 (chunksOf CHUNK [1, 2, 3])
        ∧ DATA_SHARDS ≤ m.shard_map.length :=
  c2_total_threshold envW peersW none [] [1, 2, 3] (by decide) (by intro non x; simp [envW])

/-- C9: uploading an empty file computes `chunk_count = 0`, produces no
chunks (the loop body never runs), leaves the shard_map empty, and returns
the insufficient-shards error `0/6` without reaching the
manifest-persistence step — for every environment and every non-empty peer
list. -/
theorem c9_empty_upload (env : UploadEnv) (peers : List Device) (sf : Option String)
    (tags : List String) (hpe : peers ≠ []) :
    chunk_count_of ([] : List Byte).length = 0
    ∧ chunksOf CHUNK [] = []
    ∧ locsOfGo env peers 0 (chunksOf CHUNK []) = []
    ∧ upload env peers sf tags [] = Except.error "Not enough shards stored: 0/6" := by
  refine ⟨by norm_num [chunk_count_of, CHUNK], chunksOf_nil CHUNK, ?_,
    upload_nil_eq env peers sf tags hpe⟩
  rw [chunksOf_nil]
  rfl

theorem c9_empty_upload_witness :
    chunk_count_of ([] : List Byte).length = 0
    ∧ chunksOf CHUNK [] = []
    ∧ locsOfGo envW peersW 0 (chunksOf CHUNK []) = []
    ∧ upload envW peersW none [] [] = Except.error "Not enough shards stored: 0/6" :=
  c9_empty_upload envW peersW none [] (by decide)

/-- C3, code bug: a reachable peer answering `PONG:MISSING\n` — the
protocol's own "shard absent" response (main.rs:494) — is classified
healthy (`Ok(true)`) by `verify_shard_health`, because main.rs:882 accepts
any response starting with `PONG`. The claim (backed by §4.9 and by the
peer protocol in the same file) requires this response to be classified
as missing/degraded. The `PONG:OK` and connect-failure classifications do
match the claim. -/
theorem c3_pong_missing_counted_healthy :
    verify_shard_health (ProbeEvent.response
      ['P', 'O', 'N', 'G', ':', 'M', 'I', 'S', 'S', 'I', 'N', 'G', '\n'])
      = Except.ok true
    ∧ verify_shard_health (ProbeEvent.response ['P', 'O', 'N', 'G', ':', 'O', 'K', '\n'])
      = Except.ok true
    ∧ verify_shard_health ProbeEvent.connectFail = Except.error "Device unreachable" :=
  ⟨by decide, by decide, rfl⟩

/-- C4: the reported file status (main.rs:1031) is `HEALTHY` exactly when
every probed shard reported healthy, `DEGRADED` exactly when some shard did
not report healthy but at least `DATA_SHARDS` did, and `CRITICAL` exactly
when some shard did not report healthy and fewer than `DATA_SHARDS` did
(`(countHealth rs).1` is the healthy counter of the verify loop). -/
theorem c4_status_classification (results : List (Except String Bool)) :
    (fileStatus results = "HEALTHY" ↔ ∀ r ∈ results, r = Except.ok true)
    ∧ (fileStatus results = "DEGRADED" ↔
        ¬(∀ r ∈ results, r = Except.ok true) ∧ DATA_SHARDS ≤ (countHealth results).1)
    ∧ (fileStatus results = "CRITICAL" ↔
        ¬(∀ r ∈ results, r = Except.ok true) ∧ (countHealth results).1 < DATA_SHARDS) := by
  unfold fileStatus
  by_cases hm : (countHealth results).2 = 0
  · rw [if_pos hm]
    have hall := (countHealth_snd_zero results).mp hm
    refine ⟨iff_of_true rfl hall, ?_, ?_⟩
    · exact iff_of_false (by decide) (fun hc => hc.1 hall)
    · exact iff_of_false (by decide) (fun hc => hc.1 hall)
  · rw [if_neg hm]
    have hnall : ¬ ∀ r ∈ results, r = Except.ok true := fun hall =>
      hm ((countHealth_snd_zero results).mpr hall)
    by_cases hh : DATA_SHARDS ≤ (countHealth results).1
    · rw [if_pos hh]
      refine ⟨iff_of_false (by decide) hnall, iff_of_true rfl ⟨hnall, hh⟩, ?_⟩
      exact iff_of_false (by decide) (fun hc => absurd hc.2 (by omega))
    · rw [if_neg hh]
      refine ⟨iff_of_false (by decide) hnall, ?_, iff_of_true rfl ⟨hnall, by omega⟩⟩
      exact iff_of_false (by decide) (fun hc => absurd hc.2 (by omega))

/-- C5: for a non-empty chunk ciphertext, the upload partition step
produces `DATA_SHARDS` shards each of length `shard_size = ⌈|E| / D⌉`, laid
out contiguously with a zero-padded tail, and flattening the data shards
and truncating to `|E|` — exactly what download does at main.rs:813-826 —
recovers the ciphertext. -/
theorem c5_partition_roundtrip (E : List Byte) (hE : E ≠ []) :
    (∀ sh ∈ dataShards E, sh.length = shard_size E.length)
    ∧ ((dataShards E).flatten).take E.length = E :=
  ⟨mem_dataShards_length E, flatten_dataShards_take E⟩

theorem c5_partition_roundtrip_witness :
    ([1, 2, 3, 4, 5, 6, 7] : List Byte) ≠ []
    ∧ ((∀ sh ∈ dataShards [1, 2, 3, 4, 5, 6, 7],
          sh.length = shard_size ([1, 2, 3, 4, 5, 6, 7] : List Byte).length)
       ∧ ((dataShards [1, 2, 3, 4, 5, 6, 7]).flatten).take
            ([1, 2, 3, 4, 5, 6, 7] : List Byte).length = [1, 2, 3, 4, 5, 6, 7]) :=
  ⟨by decide, c5_partition_roundtrip [1, 2, 3, 4, 5, 6, 7] (by decide)⟩

/-- C6: with a 12-byte nonce and the AEAD / LZ4 / JSON primitives meeting
their round-trip contracts at `m`, the `encrypt_manifest` blob is exactly
the nonce followed by the AEAD ciphertext of the LZ4-compressed JSON of
`m`, and `decrypt_manifest` inverts it to `m`. -/
theorem c6_manifest_blob_roundtrip (c : ManifestCrypto) (key nonce : List Byte) (m : Manifest)
    (hn : nonce.length = 12)
    (hd : c.aeadDec key nonce (c.aeadEnc key nonce (c.compress (c.toJson m)))
      = some (c.compress (c.toJson m)))
    (hdc : c.decompress LZ4_LIMIT (c.compress (c.toJson m)) = some (c.toJson m))
    (hj : c.fromJson (c.toJson m) = some m) :
    (encrypt_manifest c key nonce m).take 12 = nonce
    ∧ (encrypt_manifest c key nonce m).drop 12
        = c.aeadEnc key nonce (c.compress (c.toJson m))
    ∧ decrypt_manifest c key (encrypt_manifest c key nonce m) = Except.ok m := by
  have hlen : (encrypt_manifest c key nonce m).length
      = 12 + (c.aeadEnc key nonce (c.compress (c.toJson m))).length := by
    unfold encrypt_manifest
    rw [List.length_append, hn]
  have htake : (encrypt_manifest c key nonce m).take 12 = nonce := by
    unfold encrypt_manifest
    rw [← hn, List.take_left]
  have hdrop : (encrypt_manifest c key nonce m).drop 12
      = c.aeadEnc key nonce (c.compress (c.toJson m)) := by
    unfold encrypt_manifest
    rw [← hn, List.drop_left]
  refine ⟨htake, hdrop, ?_⟩
  unfold decrypt_manifest
  rw [if_neg (by omega), htake, hdrop, hd]
  simp only [hdc, hj]

theorem c6_manifest_blob_roundtrip_witness :
    (encrypt_manifest mcW [0] nonceW mW).take 12 = nonceW
    ∧ (encrypt_manifest mcW [0] nonceW mW).drop 12
        = mcW.aeadEnc [0] nonceW (mcW.compress (mcW.toJson mW))
    ∧ decrypt_manifest mcW [0] (encrypt_manifest mcW [0] nonceW mW) = Except.ok mW :=
  c6_manifest_blob_roundtrip mcW [0] nonceW mW rfl rfl rfl rfl

/-- C7: for the peer connection handler: a well-formed `PING:<S>\n` frame
is answered `PONG:OK\n` exactly when a file named `S` exists in the shard
store and `PONG:MISSING\n` otherwise (state unchanged); a `GET:<S>\n`
frame for an unknown `S` is answered `ERR`; and a STORE frame whose
metadata fails to parse is answered `ERR` and stores nothing. -/
theorem c7_peer_protocol (pm : List Byte → Option ShardMetadata) (freshId : List Byte)
    (st : PeerState) (S : List Byte)
    (hS : ∀ b ∈ S, b ≠ 10 ∧ b ≠ 0)
    (hTrim : trimBytes S = S)
    (hunk : readStored st S = none)
    (c0 c1 c2 c3 : Byte) (meta payload : List Byte)
    (hlen : u32be c0 c1 c2 c3 = meta.length)
    (hhdr : ¬([c0, c1, c2] = [71, 69, 84] ∨ [c0, c1, c2, c3] = [80, 73, 78, 71]))
    (hbad : pm meta = none) :
    handle_connection pm freshId st (pingFrame S)
      = some ((if fileExistsB st S then PONG_OK else PONG_MISSING), st)
    ∧ handle_connection pm freshId st (getFrame S) = some (ERR_RESP, st)
    ∧ handle_connection pm freshId st ([c0, c1, c2, c3] ++ meta ++ payload)
      = some (ERR_RESP, st) := by
  have hread : readLine (S ++ [10]) = S := readLine_append S [] hS
  refine ⟨?_, ?_, ?_⟩
  · show handle_connection pm freshId st
      (80 :: 73 :: 78 :: 71 :: (58 :: (S ++ [10]))) = _
    simp [handle_connection, hread, hTrim]
  · show handle_connection pm freshId st
      (71 :: 69 :: 84 :: 58 :: (S ++ [10])) = _
    simp [handle_connection, hread, hTrim, hunk]
  · show handle_connection pm freshId st
      (c0 :: c1 :: c2 :: c3 :: (meta ++ payload)) = _
    simp only [handle_connection]
    rw [if_neg hhdr, hlen]
    rw [if_neg (by
      rw [List.length_append]
      omega)]
    rw [List.take_left, hbad]

theorem c7_peer_protocol_witness :
    handle_connection pmW freshIdW stW (pingFrame [89])
      = some ((if fileExistsB stW [89] then PONG_OK else PONG_MISSING), stW)
    ∧ handle_connection pmW freshIdW stW (getFrame [89]) = some (ERR_RESP, stW)
    ∧ handle_connection pmW freshIdW stW ([0, 0, 0, 1] ++ [123] ++ [])
      = some (ERR_RESP, stW) :=
  c7_peer_protocol pmW freshIdW stW [89] (by decide) (by decide) rfl
    0 0 0 1 [123] [] (by decide) (by decide) rfl

/-- C8: the scatter loop of `upload` is exactly: for each `(shard_index,
shard)` of the encoded shards in order, attempt a STORE at peer
`peers[shard_index % |peers|]`; a success appends a ShardLocation carrying
the minted shard id and the chunk nonce; a failure is skipped without
aborting the chunk. Every recorded location points at the round-robin peer
of its shard index and carries the peer-minted id and the chunk nonce. -/
theorem c8_round_robin_scatter (env : UploadEnv) (peers : List Device) (cidx : Nat)
    (nonce : List Byte) (shards : List (List Byte)) :
    (scatterGo env peers cidx nonce 0 shards).1
      = (shards.enum).filterMap
          (fun p => if env.storeOk cidx p.1 then some (mkLoc env peers cidx nonce p.1) else none)
    ∧ ∀ l ∈ (scatterGo env peers cidx nonce 0 shards).1,
        l.device_id
          = (peers.getD (l.shard_index % peers.length) ⟨"", "agent", "", 0⟩).device_id
        ∧ l.shard_id = env.sid cidx l.shard_index
        ∧ l.nonce = nonce := by
  have h := scatterGo_eq env peers cidx nonce shards 0
  constructor
  · rw [show shards.enum = shards.enumFrom 0 from rfl, h]
  · intro l hl
    rw [h] at hl
    simp only [] at hl
    obtain ⟨p, hpmem, hpf⟩ := List.mem_filterMap.mp hl
    by_cases hok : env.storeOk cidx p.1 = true
    · rw [if_pos hok] at hpf
      have hlp := Option.some.inj hpf
      subst hlp
      exact ⟨rfl, rfl, rfl⟩
    · rw [if_neg hok] at hpf
      exact absurd hpf (by simp)

/-- C10: `decrypt_manifest` is total on arbitrary inputs: anything shorter
than 12 bytes yields the `Invalid manifest data` error (no out-of-bounds
slice), and a successful result requires at least 12 bytes, treats exactly
the first 12 bytes as the nonce and the remainder as ciphertext, and is the
result of the full AEAD → LZ4 → JSON chain; any stage failure yields an
error, never a wrong manifest. -/
theorem c10_decrypt_manifest_total (c : ManifestCrypto) (key data : List Byte) :
    (data.length < 12 → decrypt_manifest c key data = Except.error "Invalid manifest data")
    ∧ (∀ m, decrypt_manifest c key data = Except.ok m →
        12 ≤ data.length
        ∧ ((c.aeadDec key (data.take 12) (data.drop 12)).bind
            (fun compressed => (c.decompress LZ4_LIMIT compressed).bind c.fromJson))
          = some m) := by
  constructor
  · intro h
    unfold decrypt_manifest
    rw [if_pos h]
  · intro m hm
    unfold decrypt_manifest at hm
    by_cases h : data.length < 12
    · rw [if_pos h] at hm
      exact absurd hm (by simp)
    · rw [if_neg h] at hm
      refine ⟨by omega, ?_⟩
      cases ha : c.aeadDec key (data.take 12) (data.drop 12) with
      | none =>
        rw [ha] at hm
        exact absurd hm (by simp)
      | some compressed =>
        rw [ha] at hm
        simp only [] at hm
        cases hb : c.decompress LZ4_LIMIT compressed with
        | none =>
          rw [hb] at hm
          exact absurd hm (by simp)
        | some json =>
          rw [hb] at hm
          simp only [] at hm
          cases hc2 : c.fromJson json with
          | none =>
            rw [hc2] at hm
            exact absurd hm (by simp)
          | some m2 =>
            rw [hc2] at hm
            have hm2 : m2 = m := by simpa using hm
            subst hm2
            simp [ha, hb, hc2]

theorem c10_decrypt_manifest_total_witness :
    decrypt_manifest mcW [0] [1, 2] = Except.error "Invalid manifest data" :=
  (c10_decrypt_manifest_total mcW [0] [1, 2]).1 (by decide)

end Vishwarupa
